import Mathlib

/-!
Shallow embedding of the `expr` repository's core data model:
the `Expr` tree (src/exprs.rs), the `Builder` state machine
(src/exprs/builders.rs) and the pattern matcher
(src/patterns/expr_patterns.rs, src/patterns/wildcard_patterns.rs,
src/patterns/eq_patterns.rs).

Modelling conventions:
* Allocator parameters are zero-semantic-content in the source (they only
  decide where memory lives); they are dropped.
* `fmt_expr` / `fmt_pattern` function-pointer fields are display-only and are
  explicitly ignored by every `PartialEq` impl in the source; they are dropped
  from the tree types, and the default formatters are modelled separately as
  `String`-producing functions.
* `&mut self` methods are modelled as state-passing functions returning the
  new state (paired with the return value); a method that panics returns
  `Option`, with `none` for the panic.
* Cross-instantiation token equality (`Token1: PartialEq<Token2>`) is modelled
  by an explicit function parameter `beq : Tok1 → Tok2 → Bool`.
-/

namespace ExprTree

/-- Embeds `Expr` from src/exprs.rs: a head token and an ordered list of children.
The `fmt_expr` field is omitted (display-only, ignored by equality). -/
inductive Expr (Tok : Type) : Type where
  | mk (head_token : Tok) (child_exprs : List (Expr Tok))

/-- Head token accessor of an `Expr`. -/
def Expr.head_token {Tok : Type} : Expr Tok → Tok
  | .mk h _ => h

/-- Child list accessor of an `Expr`. -/
def Expr.child_exprs {Tok : Type} : Expr Tok → List (Expr Tok)
  | .mk _ cs => cs

/-- Embeds `Builder` from src/exprs/builders.rs, the four-state sum type. -/
inductive Builder (Tok : Type) : Type where
  | BHole
  | BTokenHole (child_exprs : List (Builder Tok))
  | BExpr (expr : Expr Tok)
  | BPart (head_token : Tok) (child_exprs : List (Builder Tok))

/-- Embeds `Builder::is_hole` (builders.rs line 107). -/
def Builder.is_hole {Tok : Type} : Builder Tok → Bool
  | .BHole => true
  | .BTokenHole _ => true
  | _ => false

/-- Embeds `Builder::has_children` (builders.rs line 129). -/
def Builder.has_children {Tok : Type} : Builder Tok → Bool
  | .BHole => false
  | _ => true

mutual

/-- Embeds `Builder::can_finish` (builders.rs lines 448-466): `false` on holes,
`true` on finished exprs, and on a part it checks every child, short
circuiting on the first hole. -/
def Builder.can_finish {Tok : Type} : Builder Tok → Bool
  | .BHole => false
  | .BTokenHole _ => false
  | .BExpr _ => true
  | .BPart _ cs => Builder.can_finish_list cs

/-- The child loop of `Builder::can_finish`. -/
def Builder.can_finish_list {Tok : Type} : List (Builder Tok) → Bool
  | [] => true
  | c :: cs => c.can_finish && Builder.can_finish_list cs

end

mutual

/-- Embeds `Builder::finish` (builders.rs lines 488-549), modelled as state passing:
the result pairs the returned `Option<Expr>` with the builder's state after
the call.  Holes return `none` and are left unchanged; a finished expr is
returned and the state is replaced by `BHole`; a part finishes its children
left to right, stopping at the first failure: on total success the state
becomes `BHole` and the assembled expr is returned, otherwise the part is
rebuilt with the successfully finished prefix re-wrapped as `BExpr`, the
failing child left in its own post-`finish` state, and the suffix untouched. -/
def Builder.finish {Tok : Type} : Builder Tok → Option (Expr Tok) × Builder Tok
  | .BHole => (none, .BHole)
  | .BTokenHole cs => (none, .BTokenHole cs)
  | .BExpr e => (some e, .BHole)
  | .BPart h cs =>
    match Builder.finish_children cs with
    | .inl es => (some (.mk h es), .BHole)
    | .inr cs' => (none, .BPart h cs')

/-- The child loop of `Builder::finish` (builders.rs lines 509-540):
`inl es` when every child finished, `inr cs'` holding the rebuilt child list
otherwise. -/
def Builder.finish_children {Tok : Type} :
    List (Builder Tok) → List (Expr Tok) ⊕ List (Builder Tok)
  | [] => .inl []
  | c :: cs =>
    match Builder.finish c with
    | (some e, _) =>
      match Builder.finish_children cs with
      | .inl es => .inl (e :: es)
      | .inr cs' => .inr (.BExpr e :: cs')
    | (none, c') => .inr (c' :: cs)

end

/-- Observable partial-tree shape of a `Builder`: erases the `BExpr`-vs-`BPart`
representation difference (the source compares those two states as equal
structures) while keeping heads, child counts, child order and the position
of every hole.  Used to state that a failed `finish` leaves the builder's
structure intact. -/
inductive PShape (Tok : Type) : Type where
  | hole
  | thole (cs : List (PShape Tok))
  | node (head_token : Tok) (cs : List (PShape Tok))

mutual

/-- Shape of a finished `Expr`. -/
def Expr.strip {Tok : Type} : Expr Tok → PShape Tok
  | .mk h cs => .node h (Expr.strip_list cs)

/-- Shape of a list of finished `Expr`s. -/
def Expr.strip_list {Tok : Type} : List (Expr Tok) → List (PShape Tok)
  | [] => []
  | c :: cs => Expr.strip c :: Expr.strip_list cs

end

mutual

/-- Shape of a `Builder`. -/
def Builder.strip {Tok : Type} : Builder Tok → PShape Tok
  | .BHole => .hole
  | .BTokenHole cs => .thole (Builder.strip_list cs)
  | .BExpr e => e.strip
  | .BPart h cs => .node h (Builder.strip_list cs)

/-- Shape of a list of `Builder`s. -/
def Builder.strip_list {Tok : Type} : List (Builder Tok) → List (PShape Tok)
  | [] => []
  | c :: cs => Builder.strip c :: Builder.strip_list cs

end

mutual

/-- Completeness of a shape: no `hole`/`thole` anywhere. -/
def PShape.complete {Tok : Type} : PShape Tok → Bool
  | .hole => false
  | .thole _ => false
  | .node _ cs => PShape.complete_list cs

/-- Completeness of a list of shapes. -/
def PShape.complete_list {Tok : Type} : List (PShape Tok) → Bool
  | [] => true
  | c :: cs => c.complete && PShape.complete_list cs

end

/-- Head token visible in a shape. -/
def PShape.head_opt {Tok : Type} : PShape Tok → Option Tok
  | .hole => none
  | .thole _ => none
  | .node h _ => some h

/-- Child count visible in a shape (`none` when there is no child list,
i.e. for the degenerate hole). -/
def PShape.child_count {Tok : Type} : PShape Tok → Option Nat
  | .hole => none
  | .thole cs => some cs.length
  | .node _ cs => some cs.length

/-- Head token of a `Builder`, when resolved (`BExpr`/`BPart`). -/
def Builder.head_opt {Tok : Type} : Builder Tok → Option Tok
  | .BHole => none
  | .BTokenHole _ => none
  | .BExpr e => some e.head_token
  | .BPart h _ => some h

/-- Child count of a `Builder` (`none` for `BHole`, which has no children). -/
def Builder.child_count {Tok : Type} : Builder Tok → Option Nat
  | .BHole => none
  | .BTokenHole cs => some cs.length
  | .BExpr e => some e.child_exprs.length
  | .BPart _ cs => some cs.length

mutual

/-- Embeds `PartialEq<Expr> for Expr` (src/exprs.rs lines 179-182, delegating to
`PartialEq for ExprInner`, src/exprs/expr_inners.rs lines 81-87): heads equal
and child vectors pairwise equal; `fmt_expr` is ignored by the source impl.
`beq` is the `Token1: PartialEq<Token2>` capability. -/
def eqExpr {Tok1 Tok2 : Type} (beq : Tok1 → Tok2 → Bool) :
    Expr Tok1 → Expr Tok2 → Bool
  | .mk h1 cs1, .mk h2 cs2 => beq h1 h2 && eqExprList beq cs1 cs2

/-- Embeds `Vec<Expr> == Vec<Expr>`: same length, elements pairwise equal. -/
def eqExprList {Tok1 Tok2 : Type} (beq : Tok1 → Tok2 → Bool) :
    List (Expr Tok1) → List (Expr Tok2) → Bool
  | [], [] => true
  | a :: as_, b :: bs => eqExpr beq a b && eqExprList beq as_ bs
  | _, _ => false

end

mutual

/-- Embeds `PartialEq<Builder> for Builder` (builders.rs lines 778-790): any hole on
either side compares unequal; `BExpr`/`BPart` compare structurally, cross
comparable. -/
def eqBuilder {Tok1 Tok2 : Type} (beq : Tok1 → Tok2 → Bool) :
    Builder Tok1 → Builder Tok2 → Bool
  | .BHole, _ => false
  | _, .BHole => false
  | .BTokenHole _, _ => false
  | _, .BTokenHole _ => false
  | .BExpr l, .BExpr r => eqExpr beq l r
  | .BExpr (.mk h1 cs1), .BPart h2 cs2 =>
    beq h1 h2 && eqExprBuilderList beq cs1 cs2
  | .BPart h1 cs1, .BExpr (.mk h2 cs2) =>
    beq h1 h2 && eqBuilderExprList beq cs1 cs2
  | .BPart h1 cs1, .BPart h2 cs2 =>
    beq h1 h2 && eqBuilderList beq cs1 cs2

/-- Embeds `Builder::eq_expr` (builders.rs lines 140-147), the
`PartialEq<Expr> for Builder` impl: holes never equal, otherwise structural. -/
def eqBuilderExpr {Tok1 Tok2 : Type} (beq : Tok1 → Tok2 → Bool) :
    Builder Tok1 → Expr Tok2 → Bool
  | .BHole, _ => false
  | .BTokenHole _, _ => false
  | .BExpr l, e => eqExpr beq l e
  | .BPart h1 cs1, .mk h2 cs2 => beq h1 h2 && eqBuilderExprList beq cs1 cs2

/-- Embeds `Expr::eq_builder` (builders.rs lines 820-827), the
`PartialEq<Builder> for Expr` impl. -/
def eqExprBuilder {Tok1 Tok2 : Type} (beq : Tok1 → Tok2 → Bool) :
    Expr Tok1 → Builder Tok2 → Bool
  | _, .BHole => false
  | _, .BTokenHole _ => false
  | e, .BExpr r => eqExpr beq e r
  | .mk h1 cs1, .BPart h2 cs2 => beq h1 h2 && eqExprBuilderList beq cs1 cs2

/-- Embeds `Vec<Builder> == Vec<Builder>` pairwise. -/
def eqBuilderList {Tok1 Tok2 : Type} (beq : Tok1 → Tok2 → Bool) :
    List (Builder Tok1) → List (Builder Tok2) → Bool
  | [], [] => true
  | a :: as_, b :: bs => eqBuilder beq a b && eqBuilderList beq as_ bs
  | _, _ => false

/-- Embeds `Vec<Builder> == Vec<Expr>` pairwise. -/
def eqBuilderExprList {Tok1 Tok2 : Type} (beq : Tok1 → Tok2 → Bool) :
    List (Builder Tok1) → List (Expr Tok2) → Bool
  | [], [] => true
  | a :: as_, b :: bs => eqBuilderExpr beq a b && eqBuilderExprList beq as_ bs
  | _, _ => false

/-- Embeds `Vec<Expr> == Vec<Builder>` pairwise. -/
def eqExprBuilderList {Tok1 Tok2 : Type} (beq : Tok1 → Tok2 → Bool) :
    List (Expr Tok1) → List (Builder Tok2) → Bool
  | [], [] => true
  | a :: as_, b :: bs => eqExprBuilder beq a b && eqExprBuilderList beq as_ bs
  | _, _ => false

end

/-- Embeds `self.child_exprs().push(child)` (builders.rs lines 253-277 plus
`Vec::push`): panics (`none`) on `BHole`; on `BExpr` first performs the
one-time `Expr`→`Part` promotion, wrapping each child as `BExpr`, then pushes
into the resulting part's child list. -/
def Builder.child_exprs_push {Tok : Type} (child : Builder Tok) :
    Builder Tok → Option (Builder Tok)
  | .BHole => none
  | .BTokenHole cs => some (.BTokenHole (cs ++ [child]))
  | .BExpr (.mk h cs) => some (.BPart h (cs.map .BExpr ++ [child]))
  | .BPart h cs => some (.BPart h (cs ++ [child]))

/-- Embeds `Builder::push_child` (builders.rs line 302), defined in the source as
`self.child_exprs().push(child)`. -/
def Builder.push_child {Tok : Type} (child : Builder Tok) (b : Builder Tok) :
    Option (Builder Tok) :=
  Builder.child_exprs_push child b

/-- Embeds `Builder::push_expr` (builders.rs lines 338-353): panics (`none`) on
`BHole`; on `BExpr` it pushes the child expr directly into the wrapped expr's
child vector (no `Expr`→`Part` promotion); on `BTokenHole`/`BPart` it pushes
`BExpr child`. -/
def Builder.push_expr {Tok : Type} (child : Expr Tok) :
    Builder Tok → Option (Builder Tok)
  | .BHole => none
  | .BTokenHole cs => some (.BTokenHole (cs ++ [.BExpr child]))
  | .BExpr (.mk h cs) => some (.BExpr (.mk h (cs ++ [child])))
  | .BPart h cs => some (.BPart h (cs ++ [.BExpr child]))

/-- Embeds `Builder::push_token` (builders.rs lines 662-667, via `push_token_in`,
lines 395-398): pushes the leaf expr `Expr::from_token_in(token, ..)`,
i.e. a head with no children, through `push_expr`. -/
def Builder.push_token {Tok : Type} (token : Tok) (b : Builder Tok) :
    Option (Builder Tok) :=
  b.push_expr (.mk token [])

/-- The one-time `Expr`→`Part` promotion performed by
`Builder::child_exprs` on a `BExpr` (builders.rs lines 264-275): unwrap the
expr and wrap each child as a trivially resolved `BExpr`; every other state
is left as it is. -/
def Builder.promote {Tok : Type} : Builder Tok → Builder Tok
  | .BExpr (.mk h cs) => .BPart h (cs.map .BExpr)
  | b => b

/-- Embeds `ExprPattern` from src/patterns/expr_patterns.rs: a head pattern and a
sparse child-pattern map.  The `SparseVec` is modelled as an association list
of `(index, sub-pattern)` pairs in its (index-ascending) iteration order;
`fmt_pattern` is omitted from the tree (display-only) and modelled separately.
The head type `H` is the polymorphic `Token: Pattern<..>` capability,
supplied to the matchers as explicit functions. -/
inductive ExprPattern (H : Type) : Type where
  | mk (head_token : H) (child_patterns : List (Nat × ExprPattern H))

/-- Head accessor of an `ExprPattern`. -/
def ExprPattern.head_token {H : Type} : ExprPattern H → H
  | .mk hp _ => hp

/-- Child-constraint list accessor of an `ExprPattern`. -/
def ExprPattern.child_patterns {H : Type} :
    ExprPattern H → List (Nat × ExprPattern H)
  | .mk _ cps => cps

mutual

/-- Embeds `ExprPattern::match_expr` (expr_patterns.rs lines 118-125): the head
pattern accepts the expr's head (`mt` is the `Token: Pattern<Token1>`
capability's `match_pattern`), and every declared child index finds a child
in the expr's (dense) child vector that matches the sub-pattern; a missing
child (`Vec::get` out of range) is `false`. -/
def ExprPattern.match_expr {H Tok : Type} (mt : H → Tok → Bool) :
    ExprPattern H → Expr Tok → Bool
  | .mk hp cps, .mk h cs => mt hp h && ExprPattern.match_expr_children mt cps cs

/-- The `child_patterns.iter().all(..)` loop of `match_expr`. -/
def ExprPattern.match_expr_children {H Tok : Type} (mt : H → Tok → Bool) :
    List (Nat × ExprPattern H) → List (Expr Tok) → Bool
  | [], _ => true
  | (i, sub) :: rest, cs =>
    (match cs[i]? with
     | none => false
     | some c => ExprPattern.match_expr mt sub c)
      && ExprPattern.match_expr_children mt rest cs

end

mutual

/-- Embeds `ExprPattern::match_builder` (expr_patterns.rs lines 95-112): `BHole`
never matches; `BTokenHole` matches the head pattern against the unit
no-information probe (`mu` is the `Token: Pattern<()>` capability) and then
checks child constraints; `BExpr` delegates to `match_expr`; `BPart` matches
head and children. -/
def ExprPattern.match_builder {H Tok : Type} (mt : H → Tok → Bool)
    (mu : H → Bool) : ExprPattern H → Builder Tok → Bool
  | _, .BHole => false
  | .mk hp cps, .BTokenHole cs =>
    if mu hp then ExprPattern.match_builder_children mt mu cps cs else false
  | p, .BExpr e => ExprPattern.match_expr mt p e
  | .mk hp cps, .BPart h cs =>
    if mt hp h then ExprPattern.match_builder_children mt mu cps cs else false

/-- The `child_patterns.iter().all(..)` loop of `match_builder`. -/
def ExprPattern.match_builder_children {H Tok : Type} (mt : H → Tok → Bool)
    (mu : H → Bool) : List (Nat × ExprPattern H) → List (Builder Tok) → Bool
  | [], _ => true
  | (i, sub) :: rest, cs =>
    (match cs[i]? with
     | none => false
     | some c => ExprPattern.match_builder mt mu sub c)
      && ExprPattern.match_builder_children mt mu rest cs

end

/-- Embeds `ExprPattern::match_token` (expr_patterns.rs lines 131-134): a bare token
matches only a pattern with no declared child constraints whose head pattern
accepts it. -/
def ExprPattern.match_token {H Tok : Type} (mt : H → Tok → Bool) :
    ExprPattern H → Tok → Bool
  | .mk hp cps, t => cps.isEmpty && mt hp t

/-- The two leaf head-pattern kinds the repository supplies:
`WildcardPattern` (src/patterns/wildcard_patterns.rs) and
`EqPattern` over a stored token (src/patterns/eq_patterns.rs). -/
inductive HeadPat (Tok : Type) : Type where
  | wildcard
  | eqTok (t : Tok)

/-- The `Pattern<Token>` capability of the two leaf kinds: a wildcard accepts
every token (wildcard_patterns.rs lines 12-14); `EqPattern` accepts exactly
the tokens equal to its stored value (eq_patterns.rs lines 12-15). -/
def HeadPat.match_tok {Tok : Type} (beq : Tok → Tok → Bool) :
    HeadPat Tok → Tok → Bool
  | .wildcard, _ => true
  | .eqTok t, t' => beq t t'

/-- The `Pattern<()>` (no-information probe) capability: a wildcard accepts
the probe (its impl is `true` for every rhs type); `EqPattern<Token>` has no
`Pattern<()>` capability at all (`Token` has no `PartialEq<()>` impl), so an
equality head can never accept the probe — modelled as `false`. -/
def HeadPat.match_unit {Tok : Type} : HeadPat Tok → Bool
  | .wildcard => true
  | .eqTok _ => false

mutual

/-- The default `fmt_pattern` of src/patterns/expr_patterns.rs (lines 19-39),
as a `String` renderer (each child rendered with the same default formatter;
`showHead` renders the head pattern's `Display`): writes the head, then, when
constraints exist, ` [`, a `... ` marker when the first declared index is not
`0`, the entries separated by `,` with a `...,` marker inserted exactly when
the index jump is not `1`, then `]`. -/
def fmt_pattern_expr {H : Type} (showHead : H → String) :
    ExprPattern H → String
  | .mk hp cps =>
    showHead hp ++
      match cps with
      | [] => ""
      | (i0, c0) :: rest =>
        " [" ++ (if 0 == i0 then "" else "... ")
          ++ fmt_pattern_expr showHead c0
          ++ fmt_pattern_expr_tail showHead i0 rest ++ "]"

/-- The `for (index, child) in child_patterns` loop of the expr_patterns.rs
formatter, carrying `last_index`. -/
def fmt_pattern_expr_tail {H : Type} (showHead : H → String) :
    Nat → List (Nat × ExprPattern H) → String
  | _, [] => ""
  | last, (i, c) :: rest =>
    "," ++ (if 1 == i - last then "" else "...,") ++ " "
      ++ fmt_pattern_expr showHead c ++ fmt_pattern_expr_tail showHead i rest

end

mutual

/-- The default `fmt_pattern` of src/patterns.rs (lines 16-36), over the same
tree shape (head plus sparse child map).  It differs from the
expr_patterns.rs formatter in one place: the marker condition between entries
is `1 != index - last_index` (patterns.rs line 27), i.e. the `...,` marker is
emitted when the indices are consecutive and omitted at a jump. -/
def fmt_pattern_old {H : Type} (showHead : H → String) :
    ExprPattern H → String
  | .mk hp cps =>
    showHead hp ++
      match cps with
      | [] => ""
      | (i0, c0) :: rest =>
        " [" ++ (if 0 == i0 then "" else "... ")
          ++ fmt_pattern_old showHead c0
          ++ fmt_pattern_old_tail showHead i0 rest ++ "]"

/-- The `for (index, child) in child_patterns` loop of the patterns.rs
formatter, carrying `last_index`. -/
def fmt_pattern_old_tail {H : Type} (showHead : H → String) :
    Nat → List (Nat × ExprPattern H) → String
  | _, [] => ""
  | last, (i, c) :: rest =>
    "," ++ (if 1 != i - last then "" else "...,") ++ " "
      ++ fmt_pattern_old showHead c ++ fmt_pattern_old_tail showHead i rest

end

mutual

/-- Modelled from the spec's words (the amended rendering contract, for
comparison with the source-derived `fmt_pattern_expr`): declared child
patterns appear in ascending index order inside brackets after the head;
two entries at consecutive indices are separated by a plain `, `; a jump in
index numbering inserts the elision marker, giving `,..., `; a leading
`... ` marker appears exactly when the first declared index is nonzero; and
nothing (in particular no tail marker) is emitted after the last entry. -/
def render_spec {H : Type} (showHead : H → String) : ExprPattern H → String
  | .mk hp cps =>
    showHead hp ++
      match cps with
      | [] => ""
      | (i0, c0) :: rest =>
        " [" ++ (if i0 = 0 then "" else "... ")
          ++ render_spec showHead c0
          ++ render_spec_tail showHead i0 rest ++ "]"

/-- Separator-and-entry tail of `render_spec`, carrying the previous index. -/
def render_spec_tail {H : Type} (showHead : H → String) :
    Nat → List (Nat × ExprPattern H) → String
  | _, [] => ""
  | last, (i, c) :: rest =>
    (if i = last + 1 then ", " else ",..., ")
      ++ render_spec showHead c ++ render_spec_tail showHead i rest

end

section Lemmas

mutual

/-- Core specification of `Builder.finish`, proved by mutual induction with
its child loop: a complete builder finishes to an expr of the same shape and
is replaced by `BHole`; an incomplete builder returns `none` and keeps its
shape. -/
theorem finish_spec {Tok : Type} (b : Builder Tok) :
    (Builder.can_finish b = true →
      ∃ e, Builder.finish b = (some e, .BHole) ∧ Expr.strip e = Builder.strip b) ∧
    (Builder.can_finish b = false →
      (Builder.finish b).1 = none ∧
        Builder.strip (Builder.finish b).2 = Builder.strip b) := by
  cases b with
  | BHole =>
    exact ⟨fun h => by simp [Builder.can_finish] at h, fun _ => ⟨rfl, rfl⟩⟩
  | BTokenHole cs =>
    exact ⟨fun h => by simp [Builder.can_finish] at h, fun _ => ⟨rfl, rfl⟩⟩
  | BExpr e =>
    exact ⟨fun _ => ⟨e, rfl, rfl⟩, fun h => by simp [Builder.can_finish] at h⟩
  | BPart h cs =>
    have ih := finish_children_spec cs
    constructor
    · intro hc
      have hc' : Builder.can_finish_list cs = true := by
        simpa [Builder.can_finish] using hc
      obtain ⟨es, he, hs⟩ := ih.1 hc'
      exact ⟨.mk h es, by simp [Builder.finish, he],
        by simp [Expr.strip, Builder.strip, hs]⟩
    · intro hc
      have hc' : Builder.can_finish_list cs = false := by
        simpa [Builder.can_finish] using hc
      obtain ⟨cs', he, hs⟩ := ih.2 hc'
      exact ⟨by simp [Builder.finish, he],
        by simp [Builder.finish, he, Builder.strip, hs]⟩

/-- Core specification of the child loop of `Builder.finish`. -/
theorem finish_children_spec {Tok : Type} (cs : List (Builder Tok)) :
    (Builder.can_finish_list cs = true →
      ∃ es, Builder.finish_children cs = .inl es ∧
        Expr.strip_list es = Builder.strip_list cs) ∧
    (Builder.can_finish_list cs = false →
      ∃ cs', Builder.finish_children cs = .inr cs' ∧
        Builder.strip_list cs' = Builder.strip_list cs) := by
  cases cs with
  | nil =>
    exact ⟨fun _ => ⟨[], rfl, rfl⟩, fun h => by simp [Builder.can_finish_list] at h⟩
  | cons c rest =>
    have ihc := finish_spec c
    have ihr := finish_children_spec rest
    constructor
    · intro hc
      have h1 : Builder.can_finish c = true := by
        have := hc
        simp only [Builder.can_finish_list, Bool.and_eq_true] at this
        exact this.1
      have h2 : Builder.can_finish_list rest = true := by
        have := hc
        simp only [Builder.can_finish_list, Bool.and_eq_true] at this
        exact this.2
      obtain ⟨e, he, hs⟩ := ihc.1 h1
      obtain ⟨es, her, hsr⟩ := ihr.1 h2
      exact ⟨e :: es, by simp [Builder.finish_children, he, her],
        by simp [Expr.strip_list, Builder.strip_list, hs, hsr]⟩
    · intro hc
      cases hcf : Builder.can_finish c with
      | false =>
        obtain ⟨hn, hs⟩ := ihc.2 hcf
        rcases hb : Builder.finish c with ⟨o, c'⟩
        rw [hb] at hn hs
        simp only at hn hs
        subst hn
        exact ⟨c' :: rest, by simp [Builder.finish_children, hb],
          by simp [Builder.strip_list, hs]⟩
      | true =>
        have h2 : Builder.can_finish_list rest = false := by
          rw [Builder.can_finish_list, hcf, Bool.true_and] at hc
          exact hc
        obtain ⟨e, he, hs⟩ := ihc.1 hcf
        obtain ⟨cs', her, hsr⟩ := ihr.2 h2
        exact ⟨.BExpr e :: cs', by simp [Builder.finish_children, he, her],
          by simp [Builder.strip_list, Builder.strip, hs, hsr]⟩

end

mutual

/-- A finished expr's shape is complete. -/
theorem expr_strip_complete {Tok : Type} (e : Expr Tok) :
    (Expr.strip e).complete = true := by
  cases e with
  | mk h cs => simpa [Expr.strip, PShape.complete] using expr_strip_list_complete cs

/-- Shapes of finished exprs are all complete. -/
theorem expr_strip_list_complete {Tok : Type} (cs : List (Expr Tok)) :
    PShape.complete_list (Expr.strip_list cs) = true := by
  cases cs with
  | nil => rfl
  | cons c rest =>
    simp [Expr.strip_list, PShape.complete_list, expr_strip_complete c,
      expr_strip_list_complete rest]

end

mutual

/-- Completeness of a builder is completeness of its shape. -/
theorem can_finish_eq_complete {Tok : Type} (b : Builder Tok) :
    Builder.can_finish b = (Builder.strip b).complete := by
  cases b with
  | BHole => rfl
  | BTokenHole cs => rfl
  | BExpr e => simp [Builder.can_finish, Builder.strip, expr_strip_complete e]
  | BPart h cs =>
    simpa [Builder.can_finish, Builder.strip, PShape.complete] using
      can_finish_list_eq_complete cs

/-- List version of `can_finish_eq_complete`. -/
theorem can_finish_list_eq_complete {Tok : Type} (cs : List (Builder Tok)) :
    Builder.can_finish_list cs = PShape.complete_list (Builder.strip_list cs) := by
  cases cs with
  | nil => rfl
  | cons c rest =>
    simp [Builder.can_finish_list, Builder.strip_list, PShape.complete_list,
      can_finish_eq_complete c, can_finish_list_eq_complete rest]

end

/-- Lengths are preserved by `Expr.strip_list`. -/
theorem expr_strip_list_length {Tok : Type} (cs : List (Expr Tok)) :
    (Expr.strip_list cs).length = cs.length := by
  induction cs with
  | nil => rfl
  | cons c rest ih => simp [Expr.strip_list, ih]

/-- Lengths are preserved by `Builder.strip_list`. -/
theorem builder_strip_list_length {Tok : Type} (cs : List (Builder Tok)) :
    (Builder.strip_list cs).length = cs.length := by
  induction cs with
  | nil => rfl
  | cons c rest ih => simp [Builder.strip_list, ih]

/-- The resolved head of a builder is readable from its shape. -/
theorem head_opt_eq_shape {Tok : Type} (b : Builder Tok) :
    Builder.head_opt b = (Builder.strip b).head_opt := by
  cases b with
  | BHole => rfl
  | BTokenHole cs => rfl
  | BExpr e => cases e with
    | mk h cs => rfl
  | BPart h cs => rfl

/-- The child count of a builder is readable from its shape. -/
theorem child_count_eq_shape {Tok : Type} (b : Builder Tok) :
    Builder.child_count b = (Builder.strip b).child_count := by
  cases b with
  | BHole => rfl
  | BTokenHole cs =>
    simp [Builder.child_count, Builder.strip, PShape.child_count,
      builder_strip_list_length]
  | BExpr e => cases e with
    | mk h cs =>
      simp [Builder.child_count, Builder.strip, Expr.strip, Expr.child_exprs,
        PShape.child_count, expr_strip_list_length]
  | BPart h cs =>
    simp [Builder.child_count, Builder.strip, PShape.child_count,
      builder_strip_list_length]

mutual

/-- Reflexivity of `eqExpr` given a reflexive token comparison. -/
theorem eqExpr_refl {Tok : Type} (beq : Tok → Tok → Bool)
    (hr : ∀ t, beq t t = true) (e : Expr Tok) : eqExpr beq e e = true := by
  cases e with
  | mk h cs => simp [eqExpr, hr h, eqExprList_refl beq hr cs]

/-- Reflexivity of `eqExprList` given a reflexive token comparison. -/
theorem eqExprList_refl {Tok : Type} (beq : Tok → Tok → Bool)
    (hr : ∀ t, beq t t = true) (cs : List (Expr Tok)) :
    eqExprList beq cs cs = true := by
  cases cs with
  | nil => rfl
  | cons c rest =>
    simp [eqExprList, eqExpr_refl beq hr c, eqExprList_refl beq hr rest]

end

mutual

/-- Injectivity of `Expr.strip`. -/
theorem expr_strip_inj {Tok : Type} (e1 e2 : Expr Tok)
    (h : Expr.strip e1 = Expr.strip e2) : e1 = e2 := by
  cases e1 with
  | mk h1 cs1 =>
    cases e2 with
    | mk h2 cs2 =>
      simp only [Expr.strip, PShape.node.injEq] at h
      rw [h.1, expr_strip_list_inj cs1 cs2 h.2]

/-- Injectivity of `Expr.strip_list`. -/
theorem expr_strip_list_inj {Tok : Type} (cs1 cs2 : List (Expr Tok))
    (h : Expr.strip_list cs1 = Expr.strip_list cs2) : cs1 = cs2 := by
  cases cs1 with
  | nil => cases cs2 with
    | nil => rfl
    | cons c rest => simp [Expr.strip_list] at h
  | cons c1 rest1 => cases cs2 with
    | nil => simp [Expr.strip_list] at h
    | cons c2 rest2 =>
      simp only [Expr.strip_list, List.cons.injEq] at h
      rw [expr_strip_inj c1 c2 h.1, expr_strip_list_inj rest1 rest2 h.2]

end

mutual

/-- A builder whose shape coincides with a finished expr's shape compares
equal to that expr under `Builder::eq_expr`. -/
theorem strip_eq_eqBuilderExpr {Tok : Type} (beq : Tok → Tok → Bool)
    (hr : ∀ t, beq t t = true) (b : Builder Tok) (e : Expr Tok)
    (h : Builder.strip b = Expr.strip e) : eqBuilderExpr beq b e = true := by
  cases b with
  | BHole => cases e with
    | mk h2 cs2 => simp [Builder.strip, Expr.strip] at h
  | BTokenHole cs => cases e with
    | mk h2 cs2 => simp [Builder.strip, Expr.strip] at h
  | BExpr e0 =>
    have : e0 = e := expr_strip_inj e0 e (by simpa [Builder.strip] using h)
    subst this
    simpa [eqBuilderExpr] using eqExpr_refl beq hr e0
  | BPart hd cs => cases e with
    | mk h2 cs2 =>
      simp only [Builder.strip, Expr.strip, PShape.node.injEq] at h
      have := strip_eq_eqBuilderExprList beq hr cs cs2 h.2
      simp [eqBuilderExpr, h.1, hr h2, this]

/-- List version of `strip_eq_eqBuilderExpr`. -/
theorem strip_eq_eqBuilderExprList {Tok : Type} (beq : Tok → Tok → Bool)
    (hr : ∀ t, beq t t = true) (cs : List (Builder Tok)) (es : List (Expr Tok))
    (h : Builder.strip_list cs = Expr.strip_list es) :
    eqBuilderExprList beq cs es = true := by
  cases cs with
  | nil => cases es with
    | nil => rfl
    | cons e rest => simp [Builder.strip_list, Expr.strip_list] at h
  | cons c rest => cases es with
    | nil => simp [Builder.strip_list, Expr.strip_list] at h
    | cons e rest2 =>
      simp only [Builder.strip_list, Expr.strip_list, List.cons.injEq] at h
      simp [eqBuilderExprList, strip_eq_eqBuilderExpr beq hr c e h.1,
        strip_eq_eqBuilderExprList beq hr rest rest2 h.2]

end

/-- Builder equality is `false` whenever the left side is a hole. -/
theorem eqBuilder_left_hole {Tok1 Tok2 : Type} (beq : Tok1 → Tok2 → Bool)
    (b : Builder Tok1) (hb : Builder.is_hole b = true) (c : Builder Tok2) :
    eqBuilder beq b c = false := by
  cases b with
  | BExpr e => simp [Builder.is_hole] at hb
  | BPart h cs => simp [Builder.is_hole] at hb
  | BHole =>
    cases c with
    | BHole => simp [eqBuilder]
    | BTokenHole cs2 => simp [eqBuilder]
    | BExpr e => cases e with
      | mk h2 cs2 => simp [eqBuilder]
    | BPart h2 cs2 => simp [eqBuilder]
  | BTokenHole cs =>
    cases c with
    | BHole => simp [eqBuilder]
    | BTokenHole cs2 => simp [eqBuilder]
    | BExpr e => cases e with
      | mk h2 cs2 => simp [eqBuilder]
    | BPart h2 cs2 => simp [eqBuilder]

/-- Builder equality is `false` whenever the right side is a hole. -/
theorem eqBuilder_right_hole {Tok1 Tok2 : Type} (beq : Tok1 → Tok2 → Bool)
    (c : Builder Tok1) (b : Builder Tok2) (hb : Builder.is_hole b = true) :
    eqBuilder beq c b = false := by
  cases b with
  | BExpr e => simp [Builder.is_hole] at hb
  | BPart h cs => simp [Builder.is_hole] at hb
  | BHole =>
    cases c with
    | BHole => simp [eqBuilder]
    | BTokenHole cs2 => simp [eqBuilder]
    | BExpr e => cases e with
      | mk h2 cs2 => simp [eqBuilder]
    | BPart h2 cs2 => simp [eqBuilder]
  | BTokenHole cs =>
    cases c with
    | BHole => simp [eqBuilder]
    | BTokenHole cs2 => simp [eqBuilder]
    | BExpr e => cases e with
      | mk h2 cs2 => simp [eqBuilder]
    | BPart h2 cs2 => simp [eqBuilder]

/-- Builder-vs-expr equality is `false` whenever the builder is a hole. -/
theorem eqBuilderExpr_hole {Tok1 Tok2 : Type} (beq : Tok1 → Tok2 → Bool)
    (b : Builder Tok1) (hb : Builder.is_hole b = true) (e : Expr Tok2) :
    eqBuilderExpr beq b e = false := by
  cases b with
  | BExpr e0 => simp [Builder.is_hole] at hb
  | BPart h cs => simp [Builder.is_hole] at hb
  | BHole => simp [eqBuilderExpr]
  | BTokenHole cs => simp [eqBuilderExpr]

/-- Expr-vs-builder equality is `false` whenever the builder is a hole. -/
theorem eqExprBuilder_hole {Tok1 Tok2 : Type} (beq : Tok1 → Tok2 → Bool)
    (e : Expr Tok1) (b : Builder Tok2) (hb : Builder.is_hole b = true) :
    eqExprBuilder beq e b = false := by
  cases b with
  | BExpr e0 => simp [Builder.is_hole] at hb
  | BPart h cs => simp [Builder.is_hole] at hb
  | BHole => simp [eqExprBuilder]
  | BTokenHole cs => simp [eqExprBuilder]

/-- Pairwise characterization of `eqExprList`: equal lengths and pairwise
equal elements in order. -/
theorem eqExprList_iff {Tok1 Tok2 : Type} (beq : Tok1 → Tok2 → Bool) :
    ∀ (cs1 : List (Expr Tok1)) (cs2 : List (Expr Tok2)),
      eqExprList beq cs1 cs2 = true ↔
        (cs1.length = cs2.length ∧
          ∀ i (hi : i < cs1.length) (hj : i < cs2.length),
            eqExpr beq (cs1.get ⟨i, hi⟩) (cs2.get ⟨i, hj⟩) = true) := by
  intro cs1
  induction cs1 with
  | nil => intro cs2
           cases cs2 with
           | nil => simp [eqExprList]
           | cons b bs => simp [eqExprList]
  | cons a as_ ih =>
    intro cs2
    cases cs2 with
    | nil => simp [eqExprList]
    | cons b bs =>
      simp only [eqExprList, Bool.and_eq_true, ih bs, List.length_cons]
      constructor
      · rintro ⟨ha, hlen, hall⟩
        refine ⟨by omega, ?_⟩
        intro i hi hj
        cases i with
        | zero => simpa using ha
        | succ n => simpa using hall n (by omega) (by omega)
      · rintro ⟨hlen, hall⟩
        refine ⟨by simpa using hall 0 (by omega) (by omega), by omega, ?_⟩
        intro i hi hj
        simpa using hall (i + 1) (by omega) (by omega)

end Lemmas

/-- C1: for every `Builder b`, the non-destructive `Builder::finish` returns
`Some` exactly when `can_finish b` holds (no `Hole`/`TokenHole` anywhere in
the subtree), and when it returns `Some` the builder is left replaced by the
empty `BHole` placeholder. -/
theorem c1_finish_some_iff_can_finish {Tok : Type} (b : Builder Tok) :
    (Builder.finish b).1.isSome = Builder.can_finish b ∧
    (Builder.can_finish b = true → (Builder.finish b).2 = .BHole) := by
  have hs := finish_spec b
  constructor
  · cases hc : Builder.can_finish b with
    | true =>
      obtain ⟨e, he, _⟩ := hs.1 hc
      simp [he]
    | false =>
      obtain ⟨hn, _⟩ := hs.2 hc
      simp [hn]
  · intro hc
    obtain ⟨e, he, _⟩ := hs.1 hc
    simp [he]

/-- Witness for C1 at a concrete complete builder. -/
theorem c1_witness :
    (Builder.finish (Builder.BPart "a" [.BExpr (.mk "b" [])])).1.isSome
        = Builder.can_finish (Builder.BPart "a" [.BExpr (.mk "b" [])]) ∧
    Builder.can_finish (Builder.BPart "a" [.BExpr (.mk "b" [])]) = true ∧
    (Builder.finish (Builder.BPart "a" [.BExpr (.mk "b" [])])).2 = .BHole :=
  ⟨(c1_finish_some_iff_can_finish _).1, rfl,
    (c1_finish_some_iff_can_finish _).2 rfl⟩

/-- C2: for every incomplete `Builder b`, the non-destructive `finish`
returns `none` and leaves the structure intact: afterwards `can_finish` is
still `false`, and the head token, child count and whole partial-tree shape
(heads, child order, hole positions — i.e. all resolved substructure, with
any partially finished `Part` rebuilt) are unchanged. -/
theorem c2_finish_incomplete_preserves {Tok : Type} (b : Builder Tok)
    (hb : Builder.can_finish b = false) :
    (Builder.finish b).1 = none ∧
    Builder.can_finish (Builder.finish b).2 = false ∧
    Builder.head_opt (Builder.finish b).2 = Builder.head_opt b ∧
    Builder.child_count (Builder.finish b).2 = Builder.child_count b ∧
    Builder.strip (Builder.finish b).2 = Builder.strip b := by
  obtain ⟨hn, hs⟩ := (finish_spec b).2 hb
  refine ⟨hn, ?_, ?_, ?_, hs⟩
  · rw [can_finish_eq_complete, hs, ← can_finish_eq_complete, hb]
  · rw [head_opt_eq_shape, hs, ← head_opt_eq_shape]
  · rw [child_count_eq_shape, hs, ← child_count_eq_shape]

/-- Witness for C2 at a concrete incomplete builder (a part with a finished
first child and a hole second child). -/
theorem c2_witness :
    Builder.can_finish (Builder.BPart "a" [.BExpr (.mk "b" []), .BHole]) = false ∧
    ((Builder.finish (Builder.BPart "a" [.BExpr (.mk "b" []), .BHole])).1 = none ∧
      Builder.can_finish
        (Builder.finish (Builder.BPart "a" [.BExpr (.mk "b" []), .BHole])).2 = false ∧
      Builder.head_opt
          (Builder.finish (Builder.BPart "a" [.BExpr (.mk "b" []), .BHole])).2
        = Builder.head_opt (Builder.BPart "a" [.BExpr (.mk "b" []), .BHole]) ∧
      Builder.child_count
          (Builder.finish (Builder.BPart "a" [.BExpr (.mk "b" []), .BHole])).2
        = Builder.child_count (Builder.BPart "a" [.BExpr (.mk "b" []), .BHole]) ∧
      Builder.strip
          (Builder.finish (Builder.BPart "a" [.BExpr (.mk "b" []), .BHole])).2
        = Builder.strip (Builder.BPart "a" [.BExpr (.mk "b" []), .BHole])) :=
  ⟨rfl, c2_finish_incomplete_preserves _ rfl⟩

/-- C3: for every complete `Builder b`, `finish` succeeds and the returned
expr is structurally equal — under the cross-type `Builder`/`Expr` equality
`Builder::eq_expr` — to the builder's structure before the call, which has
the same shape (head and children, recursively) as a directly built expr. -/
theorem c3_finish_complete_roundtrip {Tok : Type} (beq : Tok → Tok → Bool)
    (hr : ∀ t, beq t t = true) (b : Builder Tok)
    (hb : Builder.can_finish b = true) :
    ∃ e, (Builder.finish b).1 = some e ∧ eqBuilderExpr beq b e = true ∧
      Expr.strip e = Builder.strip b := by
  obtain ⟨e, he, hs⟩ := (finish_spec b).1 hb
  exact ⟨e, by simp [he], strip_eq_eqBuilderExpr beq hr b e hs.symm, hs⟩

/-- C4: a `Builder` in `BHole` or `BTokenHole` state compares unequal to
every builder and every expr — including itself compared twice and another
hole — on either side of the comparison; conversely, any two builders that
do compare equal are both in a non-hole (`BExpr`/`BPart`) state, and those
states compare cross-state: an equal-shaped `BExpr` and `BPart` pair is
equal. -/
theorem c4_hole_never_equal {Tok1 Tok2 : Type} (beq12 : Tok1 → Tok2 → Bool)
    (beq21 : Tok2 → Tok1 → Bool) (beq11 : Tok1 → Tok1 → Bool)
    (b : Builder Tok1) (hb : Builder.is_hole b = true)
    (c : Builder Tok2) (e : Expr Tok2) :
    eqBuilder beq12 b c = false ∧
    eqBuilder beq21 c b = false ∧
    eqBuilderExpr beq12 b e = false ∧
    eqExprBuilder beq21 e b = false ∧
    eqBuilder beq11 b b = false ∧
    (∀ (b1 : Builder Tok1) (b2 : Builder Tok2),
      eqBuilder beq12 b1 b2 = true →
        Builder.is_hole b1 = false ∧ Builder.is_hole b2 = false) ∧
    (∀ (h1 : Tok1) (cs1 : List (Expr Tok1)) (h2 : Tok2)
        (cs2 : List (Builder Tok2)),
      eqBuilder beq12 (.BExpr (.mk h1 cs1)) (.BPart h2 cs2)
        = (beq12 h1 h2 && eqExprBuilderList beq12 cs1 cs2)) := by
  refine ⟨eqBuilder_left_hole beq12 b hb c, eqBuilder_right_hole beq21 c b hb,
    eqBuilderExpr_hole beq12 b hb e, eqExprBuilder_hole beq21 e b hb,
    eqBuilder_left_hole beq11 b hb b, ?_, ?_⟩
  · intro b1 b2 h
    constructor
    · cases hb1 : Builder.is_hole b1 with
      | false => rfl
      | true => rw [eqBuilder_left_hole beq12 b1 hb1 b2] at h; exact h.symm
    · cases hb2 : Builder.is_hole b2 with
      | false => rfl
      | true => rw [eqBuilder_right_hole beq12 b1 b2 hb2] at h; exact h.symm
  · intro h1 cs1 h2 cs2
    simp [eqBuilder]

/-- Witness for C4 at the concrete hole states over `Bool` tokens. -/
theorem c4_witness :
    Builder.is_hole (Builder.BHole : Builder Bool) = true ∧
    (eqBuilder (· == ·) (Builder.BHole : Builder Bool)
        (Builder.BExpr (.mk true []) : Builder Bool) = false ∧
      eqBuilder (· == ·) (Builder.BExpr (.mk true []) : Builder Bool)
        (Builder.BHole : Builder Bool) = false ∧
      eqBuilderExpr (· == ·) (Builder.BHole : Builder Bool)
        (Expr.mk true [] : Expr Bool) = false ∧
      eqExprBuilder (· == ·) (Expr.mk true [] : Expr Bool)
        (Builder.BHole : Builder Bool) = false ∧
      eqBuilder (· == ·) (Builder.BHole : Builder Bool)
        (Builder.BHole : Builder Bool) = false ∧
      (∀ (b1 : Builder Bool) (b2 : Builder Bool),
        eqBuilder (· == ·) b1 b2 = true →
          Builder.is_hole b1 = false ∧ Builder.is_hole b2 = false) ∧
      (∀ (h1 : Bool) (cs1 : List (Expr Bool)) (h2 : Bool)
          (cs2 : List (Builder Bool)),
        eqBuilder (· == ·) (.BExpr (.mk h1 cs1)) (.BPart h2 cs2)
          = ((h1 == h2) && eqExprBuilderList (· == ·) cs1 cs2))) :=
  ⟨rfl, c4_hole_never_equal (· == ·) (· == ·) (· == ·) Builder.BHole rfl
    (Builder.BExpr (.mk true [])) (Expr.mk true [])⟩

/-- Witness for C3 at a concrete complete builder over `Bool` tokens. -/
theorem c3_witness :
    (∀ t : Bool, (t == t) = true) ∧
    Builder.can_finish (Builder.BPart true [.BExpr (.mk false [])]) = true ∧
    ∃ e, (Builder.finish (Builder.BPart true [.BExpr (.mk false [])])).1 = some e ∧
      eqBuilderExpr (· == ·) (Builder.BPart true [.BExpr (.mk false [])]) e = true ∧
      Expr.strip e = Builder.strip (Builder.BPart true [.BExpr (.mk false [])]) :=
  ⟨by decide, rfl,
    c3_finish_complete_roundtrip (· == ·) (by decide) _ rfl⟩

/-- C7: expr equality is reflexive (given a reflexive token comparison), and
two exprs — over possibly different token instantiations bridged by an
arbitrary cross-type token comparison — are equal exactly when their heads
compare equal and their child sequences are pairwise equal in order; a head
mismatch, a length mismatch or any differing child refutes equality. -/
theorem c7_expr_equality {Tok Tok1 Tok2 : Type} (beq : Tok → Tok → Bool)
    (hr : ∀ t, beq t t = true) (beq12 : Tok1 → Tok2 → Bool) (e : Expr Tok)
    (h1 : Tok1) (cs1 : List (Expr Tok1)) (h2 : Tok2) (cs2 : List (Expr Tok2)) :
    eqExpr beq e e = true ∧
    (eqExpr beq12 (.mk h1 cs1) (.mk h2 cs2) = true ↔
      (beq12 h1 h2 = true ∧ cs1.length = cs2.length ∧
        ∀ i (hi : i < cs1.length) (hj : i < cs2.length),
          eqExpr beq12 (cs1.get ⟨i, hi⟩) (cs2.get ⟨i, hj⟩) = true)) := by
  refine ⟨eqExpr_refl beq hr e, ?_⟩
  rw [show eqExpr beq12 (.mk h1 cs1) (.mk h2 cs2)
      = (beq12 h1 h2 && eqExprList beq12 cs1 cs2) from rfl]
  simp only [Bool.and_eq_true, eqExprList_iff, and_assoc]

/-- Witness for C7 over `Bool` tokens, with a reflexive comparison and a
concrete pair differing in one child. -/
theorem c7_witness :
    (∀ t : Bool, (t == t) = true) ∧
    (eqExpr (· == ·) (Expr.mk true [.mk false []]) (Expr.mk true [.mk false []]) = true ∧
      (eqExpr (· == ·) (Expr.mk true [.mk false []]) (Expr.mk true [.mk true []]) = true ↔
        ((true == true) = true ∧
          [Expr.mk false []].length = [Expr.mk true []].length ∧
          ∀ i (hi : i < [Expr.mk false []].length)
            (hj : i < [Expr.mk true []].length),
            eqExpr (· == ·) ([Expr.mk false []].get ⟨i, hi⟩)
              ([Expr.mk true []].get ⟨i, hj⟩) = true))) :=
  ⟨by decide, c7_expr_equality (· == ·) (by decide) (· == ·)
    (Expr.mk true [.mk false []]) true [Expr.mk false []] true [Expr.mk true []]⟩

section Lemmas2

/-- Characterization of the `match_expr` child loop: every declared index
must find a child that matches its sub-pattern. -/
theorem match_expr_children_iff {H Tok : Type} (mt : H → Tok → Bool)
    (cps : List (Nat × ExprPattern H)) (cs : List (Expr Tok)) :
    ExprPattern.match_expr_children mt cps cs = true ↔
      ∀ p ∈ cps, ∃ c, cs[p.1]? = some c ∧
        ExprPattern.match_expr mt p.2 c = true := by
  induction cps with
  | nil => simp [ExprPattern.match_expr_children]
  | cons p rest ih =>
    obtain ⟨i, sub⟩ := p
    rw [show ExprPattern.match_expr_children mt ((i, sub) :: rest) cs
        = ((match cs[i]? with
            | none => false
            | some c => ExprPattern.match_expr mt sub c)
          && ExprPattern.match_expr_children mt rest cs) from rfl]
    rw [Bool.and_eq_true, ih]
    have hmatch : (match cs[i]? with
        | none => false
        | some c => ExprPattern.match_expr mt sub c) = true ↔
        ∃ c, cs[i]? = some c ∧ ExprPattern.match_expr mt sub c = true := by
      cases hci : cs[i]? with
      | none => simp
      | some c => simp
    rw [hmatch]
    constructor
    · rintro ⟨hhead, hrest⟩ q hq
      rcases List.mem_cons.1 hq with hq | hq
      · subst hq
        exact hhead
      · exact hrest q hq
    · intro hall
      exact ⟨hall (i, sub) (List.mem_cons_self _ _),
        fun q hq => hall q (List.mem_cons_of_mem _ hq)⟩

/-- Characterization of the `match_builder` child loop. -/
theorem match_builder_children_iff {H Tok : Type} (mt : H → Tok → Bool)
    (mu : H → Bool) (cps : List (Nat × ExprPattern H))
    (cs : List (Builder Tok)) :
    ExprPattern.match_builder_children mt mu cps cs = true ↔
      ∀ p ∈ cps, ∃ c, cs[p.1]? = some c ∧
        ExprPattern.match_builder mt mu p.2 c = true := by
  induction cps with
  | nil => simp [ExprPattern.match_builder_children]
  | cons p rest ih =>
    obtain ⟨i, sub⟩ := p
    rw [show ExprPattern.match_builder_children mt mu ((i, sub) :: rest) cs
        = ((match cs[i]? with
            | none => false
            | some c => ExprPattern.match_builder mt mu sub c)
          && ExprPattern.match_builder_children mt mu rest cs) from rfl]
    rw [Bool.and_eq_true, ih]
    have hmatch : (match cs[i]? with
        | none => false
        | some c => ExprPattern.match_builder mt mu sub c) = true ↔
        ∃ c, cs[i]? = some c ∧ ExprPattern.match_builder mt mu sub c = true := by
      cases hci : cs[i]? with
      | none => simp
      | some c => simp
    rw [hmatch]
    constructor
    · rintro ⟨hhead, hrest⟩ q hq
      rcases List.mem_cons.1 hq with hq | hq
      · subst hq
        exact hhead
      · exact hrest q hq
    · intro hall
      exact ⟨hall (i, sub) (List.mem_cons_self _ _),
        fun q hq => hall q (List.mem_cons_of_mem _ hq)⟩

end Lemmas2

/-- C5: `match_expr` succeeds exactly when the head pattern accepts the
expr's head and every declared child index finds a child of the expr (so an
out-of-range declared index refutes the match) that matches the sub-pattern
recursively; undeclared indices impose no constraint. -/
theorem c5_match_expr_iff {H Tok : Type} (mt : H → Tok → Bool)
    (hp : H) (cps : List (Nat × ExprPattern H)) (h : Tok)
    (cs : List (Expr Tok)) :
    ExprPattern.match_expr mt (.mk hp cps) (.mk h cs) = true ↔
      (mt hp h = true ∧
        ∀ p ∈ cps, ∃ c, cs[p.1]? = some c ∧
          ExprPattern.match_expr mt p.2 c = true) := by
  rw [show ExprPattern.match_expr mt (.mk hp cps) (.mk h cs)
      = (mt hp h && ExprPattern.match_expr_children mt cps cs) from rfl]
  rw [Bool.and_eq_true, match_expr_children_iff]

/-- Witness for C5 at the spec's concrete example: wildcard head with child
constraints `{0: wildcard, 2: equals "b"}` against `head[a, x, b]`; matching
succeeds, while changing the expectation at index 2 to `"c"`, or declaring
the out-of-range index 5, refutes it. -/
theorem c5_witness :
    (ExprPattern.match_expr (HeadPat.match_tok (· == ·))
        (.mk .wildcard [(0, .mk .wildcard []), (2, .mk (.eqTok "b") [])])
        (.mk "head" [.mk "a" [], .mk "x" [], .mk "b" []]) = true ↔
      (HeadPat.match_tok (· == ·) HeadPat.wildcard "head" = true ∧
        ∀ p ∈ [((0 : Nat), ExprPattern.mk ((HeadPat.wildcard : HeadPat String)) []),
               (2, .mk (.eqTok "b") [])],
          ∃ c, [Expr.mk "a" [], .mk "x" [], .mk "b" []][p.1]? = some c ∧
            ExprPattern.match_expr (HeadPat.match_tok (· == ·)) p.2 c = true)) ∧
    ExprPattern.match_expr (HeadPat.match_tok (· == ·))
      (.mk .wildcard [(0, .mk .wildcard []), (2, .mk (.eqTok "b") [])])
      (.mk "head" [.mk "a" [], .mk "x" [], .mk "b" []]) = true ∧
    ExprPattern.match_expr (HeadPat.match_tok (· == ·))
      (.mk .wildcard [(0, .mk .wildcard []), (2, .mk (.eqTok "c") [])])
      (.mk "head" [.mk "a" [], .mk "x" [], .mk "b" []]) = false ∧
    ExprPattern.match_expr (HeadPat.match_tok (· == ·))
      (.mk .wildcard [(0, .mk .wildcard []), (5, .mk .wildcard [])])
      (.mk "head" [.mk "a" [], .mk "x" [], .mk "b" []]) = false :=
  ⟨c5_match_expr_iff (HeadPat.match_tok (· == ·)) .wildcard
      [(0, .mk .wildcard []), (2, .mk (.eqTok "b") [])] "head"
      [Expr.mk "a" [], .mk "x" [], .mk "b" []],
    by rfl, by rfl, by rfl⟩

/-- C6: `match_builder` never matches a `BHole`, whatever the pattern; a
`BTokenHole` matches exactly when the head pattern accepts the
no-information unit probe and every declared child constraint is met by the
corresponding child builder; an `equals(t)` head (which has no unit-probe
capability) therefore never matches a `BTokenHole`, while a wildcard head
passes the probe — in particular a wildcard pattern with no child
constraints matches any `BTokenHole`. -/
theorem c6_match_builder_holes {Tok : Type} (beq : Tok → Tok → Bool)
    (p : ExprPattern (HeadPat Tok)) (hp : HeadPat Tok)
    (cps : List (Nat × ExprPattern (HeadPat Tok)))
    (cs : List (Builder Tok)) (t : Tok) :
    ExprPattern.match_builder (HeadPat.match_tok beq) HeadPat.match_unit
        p .BHole = false ∧
    (ExprPattern.match_builder (HeadPat.match_tok beq) HeadPat.match_unit
        (.mk hp cps) (.BTokenHole cs) = true ↔
      (HeadPat.match_unit hp = true ∧
        ∀ q ∈ cps, ∃ c, cs[q.1]? = some c ∧
          ExprPattern.match_builder (HeadPat.match_tok beq) HeadPat.match_unit
            q.2 c = true)) ∧
    ExprPattern.match_builder (HeadPat.match_tok beq) HeadPat.match_unit
      (.mk (.eqTok t) cps) (.BTokenHole cs) = false ∧
    HeadPat.match_unit (.wildcard : HeadPat Tok) = true ∧
    ExprPattern.match_builder (HeadPat.match_tok beq) HeadPat.match_unit
      (.mk .wildcard []) (.BTokenHole cs) = true := by
  refine ⟨?_, ?_, ?_, rfl, ?_⟩
  · cases p with
    | mk hp0 cps0 => rfl
  · rw [show ExprPattern.match_builder (HeadPat.match_tok beq)
        HeadPat.match_unit (.mk hp cps) (.BTokenHole cs)
        = (if HeadPat.match_unit hp then
            ExprPattern.match_builder_children (HeadPat.match_tok beq)
              HeadPat.match_unit cps cs
          else false) from rfl]
    cases hu : HeadPat.match_unit hp with
    | true => simp [match_builder_children_iff]
    | false => simp
  · rfl
  · rfl

/-- Witness for C6 at concrete `String`-token patterns and builders. -/
theorem c6_witness :
    ExprPattern.match_builder (HeadPat.match_tok (· == ·)) HeadPat.match_unit
        (.mk (.eqTok "t") []) (Builder.BHole : Builder String) = false ∧
    (ExprPattern.match_builder (HeadPat.match_tok (· == ·)) HeadPat.match_unit
        (.mk .wildcard [((0 : Nat), .mk .wildcard [])])
        (Builder.BTokenHole [.BExpr (.mk "x" [])] : Builder String) = true ↔
      (HeadPat.match_unit ((HeadPat.wildcard : HeadPat String)) = true ∧
        ∀ q ∈ [((0 : Nat), ExprPattern.mk ((HeadPat.wildcard : HeadPat String)) [])],
          ∃ c, [Builder.BExpr (Expr.mk "x" [])][q.1]? = some c ∧
            ExprPattern.match_builder (HeadPat.match_tok (· == ·))
              HeadPat.match_unit q.2 c = true)) ∧
    ExprPattern.match_builder (HeadPat.match_tok (· == ·)) HeadPat.match_unit
      (.mk (.eqTok "t") [])
      (Builder.BTokenHole [.BExpr (.mk "x" [])] : Builder String) = false ∧
    HeadPat.match_unit ((HeadPat.wildcard : HeadPat String)) = true ∧
    ExprPattern.match_builder (HeadPat.match_tok (· == ·)) HeadPat.match_unit
      (.mk .wildcard [])
      (Builder.BTokenHole [.BExpr (.mk "x" [])] : Builder String) = true :=
  c6_match_builder_holes (· == ·) (.mk (.eqTok "t") []) .wildcard
    [((0 : Nat), .mk .wildcard [])] [.BExpr (.mk "x" [])] "t"

/-- C10: `match_token` succeeds exactly when the pattern declares no child
constraint at all and its head pattern accepts the token; consequently a
pattern with any declared child constraint never matches a bare token, even
with a wildcard head. -/
theorem c10_match_token_iff {H Tok : Type} (mt : H → Tok → Bool) (hp : H)
    (cps : List (Nat × ExprPattern H)) (t : Tok) :
    (ExprPattern.match_token mt (.mk hp cps) t = true ↔
      (cps = [] ∧ mt hp t = true)) ∧
    (∀ q ∈ cps, ExprPattern.match_token mt (.mk hp cps) t = false) := by
  constructor
  · rw [show ExprPattern.match_token mt (.mk hp cps) t
        = (cps.isEmpty && mt hp t) from rfl]
    cases cps with
    | nil => simp [List.isEmpty]
    | cons q rest => simp [List.isEmpty]
  · intro q hq
    rw [show ExprPattern.match_token mt (.mk hp cps) t
        = (cps.isEmpty && mt hp t) from rfl]
    cases cps with
    | nil => simp at hq
    | cons a rest => simp [List.isEmpty]

/-- Witness for C10: a wildcard-headed pattern with a declared child
constraint fails to match a bare token, while the constraint-free wildcard
pattern matches it. -/
theorem c10_witness :
    (ExprPattern.match_token (HeadPat.match_tok (· == ·))
        (.mk .wildcard [((0 : Nat), .mk .wildcard [])]) "t" = true ↔
      ([((0 : Nat), ExprPattern.mk ((HeadPat.wildcard : HeadPat String)) [])] = [] ∧
        HeadPat.match_tok (· == ·) HeadPat.wildcard "t" = true)) ∧
    ExprPattern.match_token (HeadPat.match_tok (· == ·))
      (.mk .wildcard [((0 : Nat), .mk .wildcard [])]) "t" = false :=
  ⟨(c10_match_token_iff (HeadPat.match_tok (· == ·)) .wildcard
      [((0 : Nat), .mk .wildcard [])] "t").1,
    (c10_match_token_iff (HeadPat.match_tok (· == ·)) .wildcard
      [((0 : Nat), .mk .wildcard [])] "t").2
      ((0 : Nat), .mk .wildcard []) (List.mem_cons_self _ _)⟩

/-- Counterexample to C8 as stated: on a builder in resolved `BExpr` state,
`push_expr` pushes the child directly into the wrapped expr and does NOT
perform the `Expr`→`Part` auto-promotion that `child_exprs().push(..)`
performs, so the two calls leave the builder in different states. -/
theorem c8_counterexample :
    Builder.push_expr (Expr.mk "b" [])
        (Builder.BExpr (.mk "a" []) : Builder String)
      ≠ Builder.child_exprs_push (.BExpr (.mk "b" []))
          (Builder.BExpr (.mk "a" []) : Builder String) ∧
    Builder.push_expr (Expr.mk "b" [])
        (Builder.BExpr (.mk "a" []) : Builder String)
      = some (.BExpr (.mk "a" [.mk "b" []])) ∧
    Builder.child_exprs_push (.BExpr (.mk "b" []))
        (Builder.BExpr (.mk "a" []) : Builder String)
      = some (.BPart "a" [.BExpr (.mk "b" [])]) :=
  ⟨by simp [Builder.push_expr, Builder.child_exprs_push], rfl, rfl⟩

/-- C8 (amended): `push_child` is exactly `child_exprs().push`; `push_expr`
and (through it) `push_token` panic exactly when the builder is a `BHole`
and behave as `child_exprs().push(BExpr ..)` on `BTokenHole` and `BPart`
states, but on a resolved `BExpr` state they push directly into the wrapped
expr without promoting it to `Part`; the two results coincide after
applying the `Expr`→`Part` promotion. -/
theorem c8_push_equiv {Tok : Type} (b : Builder Tok) (c : Builder Tok)
    (e : Expr Tok) (t : Tok) :
    Builder.push_child c b = Builder.child_exprs_push c b ∧
    (Builder.push_expr e b).map Builder.promote
      = (Builder.child_exprs_push (.BExpr e) b).map Builder.promote ∧
    Builder.push_token t b = Builder.push_expr (.mk t []) b ∧
    (Builder.push_expr e b = none ↔ b = .BHole) ∧
    (Builder.child_exprs_push c b = none ↔ b = .BHole) ∧
    (Builder.is_hole b = false →
      Builder.push_expr e b = Builder.child_exprs_push (.BExpr e) b ∨
        ∃ h0 cs0, b = .BExpr (.mk h0 cs0) ∧
          Builder.push_expr e b = some (.BExpr (.mk h0 (cs0 ++ [e])))) := by
  refine ⟨rfl, ?_, rfl, ?_, ?_, ?_⟩
  · cases b with
    | BHole => rfl
    | BTokenHole cs => rfl
    | BExpr e0 => cases e0 with
      | mk h0 cs0 =>
        simp [Builder.push_expr, Builder.child_exprs_push, Builder.promote,
          List.map_append]
    | BPart h0 cs0 => rfl
  · cases b with
    | BHole => simp [Builder.push_expr]
    | BTokenHole cs => simp [Builder.push_expr]
    | BExpr e0 => cases e0 with
      | mk h0 cs0 => simp [Builder.push_expr]
    | BPart h0 cs0 => simp [Builder.push_expr]
  · cases b with
    | BHole => simp [Builder.child_exprs_push]
    | BTokenHole cs => simp [Builder.child_exprs_push]
    | BExpr e0 => cases e0 with
      | mk h0 cs0 => simp [Builder.child_exprs_push]
    | BPart h0 cs0 => simp [Builder.child_exprs_push]
  · intro hb
    cases b with
    | BHole => simp [Builder.is_hole] at hb
    | BTokenHole cs => simp [Builder.is_hole] at hb
    | BExpr e0 => cases e0 with
      | mk h0 cs0 => exact Or.inr ⟨h0, cs0, rfl, rfl⟩
    | BPart h0 cs0 => exact Or.inl rfl

/-- Witness for C8 (amended) at a concrete resolved `BExpr` builder. -/
theorem c8_witness :
    Builder.is_hole (Builder.BExpr (.mk "a" []) : Builder String) = false ∧
    (Builder.push_child .BHole (Builder.BExpr (.mk "a" []) : Builder String)
        = Builder.child_exprs_push .BHole (Builder.BExpr (.mk "a" [])) ∧
      (Builder.push_expr (Expr.mk "b" [])
            (Builder.BExpr (.mk "a" []) : Builder String)).map Builder.promote
        = (Builder.child_exprs_push (.BExpr (.mk "b" []))
            (Builder.BExpr (.mk "a" []))).map Builder.promote ∧
      (Builder.push_expr (Expr.mk "b" [])
          (Builder.BExpr (.mk "a" []) : Builder String)
        = Builder.child_exprs_push (.BExpr (.mk "b" []))
            (Builder.BExpr (.mk "a" [])) ∨
        ∃ h0 cs0, (Builder.BExpr (.mk "a" []) : Builder String)
            = .BExpr (.mk h0 cs0) ∧
          Builder.push_expr (Expr.mk "b" []) (Builder.BExpr (.mk "a" []))
            = some (.BExpr (.mk h0 (cs0 ++ [Expr.mk "b" []]))))) :=
  ⟨rfl,
    (c8_push_equiv (Builder.BExpr (.mk "a" [])) .BHole (.mk "b" []) "t").1,
    (c8_push_equiv (Builder.BExpr (.mk "a" [])) .BHole (.mk "b" []) "t").2.1,
    (c8_push_equiv (Builder.BExpr (.mk "a" [])) .BHole
      (.mk "b" []) "t").2.2.2.2.2 rfl⟩

section Lemmas3

mutual

/-- The expr_patterns.rs default formatter realizes the spec-side rendering
contract on every pattern. -/
theorem fmt_render_aux {H : Type} (showHead : H → String) (p : ExprPattern H) :
    fmt_pattern_expr showHead p = render_spec showHead p := by
  cases p with
  | mk hp cps =>
    cases cps with
    | nil => rfl
    | cons p0 rest =>
      obtain ⟨i0, c0⟩ := p0
      rw [show fmt_pattern_expr showHead (.mk hp ((i0, c0) :: rest))
          = showHead hp ++ (" [" ++ (if 0 == i0 then "" else "... ")
            ++ fmt_pattern_expr showHead c0
            ++ fmt_pattern_expr_tail showHead i0 rest ++ "]") from rfl]
      rw [show render_spec showHead (.mk hp ((i0, c0) :: rest))
          = showHead hp ++ (" [" ++ (if i0 = 0 then "" else "... ")
            ++ render_spec showHead c0
            ++ render_spec_tail showHead i0 rest ++ "]") from rfl]
      rw [fmt_render_aux showHead c0, fmt_render_tail_aux showHead i0 rest]
      by_cases h0 : i0 = 0
      · rw [if_pos h0, if_pos (by simp [h0] : (0 == i0) = true)]
      · rw [if_neg h0,
          if_neg (by simp only [beq_iff_eq]; omega : ¬((0 == i0) = true))]

/-- Tail-loop version of `fmt_render_aux`. -/
theorem fmt_render_tail_aux {H : Type} (showHead : H → String) (last : Nat)
    (rest : List (Nat × ExprPattern H)) :
    fmt_pattern_expr_tail showHead last rest
      = render_spec_tail showHead last rest := by
  cases rest with
  | nil => rfl
  | cons p0 rest2 =>
    obtain ⟨i, c⟩ := p0
    rw [show fmt_pattern_expr_tail showHead last ((i, c) :: rest2)
        = "," ++ (if 1 == i - last then "" else "...,") ++ " "
          ++ fmt_pattern_expr showHead c
          ++ fmt_pattern_expr_tail showHead i rest2 from rfl]
    rw [show render_spec_tail showHead last ((i, c) :: rest2)
        = (if i = last + 1 then ", " else ",..., ")
          ++ render_spec showHead c
          ++ render_spec_tail showHead i rest2 from rfl]
    rw [fmt_render_aux showHead c, fmt_render_tail_aux showHead i rest2]
    by_cases h : i = last + 1
    · rw [if_pos h,
        if_pos (by simp only [beq_iff_eq]; omega : (1 == i - last) = true)]
      congr 2
    · rw [if_neg h,
        if_neg (by simp only [beq_iff_eq]; omega : ¬((1 == i - last) = true))]
      congr 2

end

end Lemmas3

/-- Counterexample to C9 as stated: the repository carries two default
pattern formatters, and the one in src/patterns.rs has the elision condition
inverted (`1 != index - last_index`), so a pattern declaring the two
consecutive indices 0 and 1 renders WITH an elision marker between the
entries — where the claim requires none — while a jump from 0 to 2 renders
without a marker.  (The expr_patterns.rs formatter renders the same inputs
per the claim, but also never emits the claimed tail-gap marker.) -/
theorem c9_counterexample :
    fmt_pattern_old (fun _ => "W")
        (.mk () [((0 : Nat), .mk () []), (1, .mk () [])])
      = "W [W,..., W]" ∧
    ¬ fmt_pattern_old (fun _ => "W")
        (.mk () [((0 : Nat), .mk () []), (1, .mk () [])])
      = "W [W, W]" ∧
    fmt_pattern_old (fun _ => "W")
        (.mk () [((0 : Nat), .mk () []), (2, .mk () [])])
      = "W [W, W]" ∧
    fmt_pattern_expr (fun _ => "W")
        (.mk () [((0 : Nat), .mk () []), (1, .mk () [])])
      = "W [W, W]" ∧
    fmt_pattern_expr (fun _ => "W")
        (.mk () [((0 : Nat), .mk () []), (2, .mk () [])])
      = "W [W,..., W]" := by
  refine ⟨by decide, by decide, by decide, by decide, by decide⟩

/-- C9 (amended): the expr_patterns.rs default formatter renders declared
child patterns in list (index-ascending) order inside brackets after the
head, with no elision marker between entries at consecutive indices, the
`...,` marker between entries exactly at a jump in index numbering, the
leading `... ` marker exactly when the first declared index is nonzero, and
no marker at all after the last entry (in particular no tail-gap marker);
the patterns.rs default formatter instead inverts the between-entry
condition. -/
theorem c9_fmt_render {H : Type} (showHead : H → String) (p : ExprPattern H) :
    fmt_pattern_expr showHead p = render_spec showHead p :=
  fmt_render_aux showHead p

end ExprTree
